import Mathlib

/-!
Verification development for the umbra-xmr-bridge backend.

Shallow embedding of the order lifecycle engine, rate engine, audit chain,
and threshold-signing coordinator of the Rust backend.  Rust `Decimal`
values are modelled as exact rationals (all quantities in scope stay well
within `rust_decimal`'s 96-bit / scale-28 exact range), database tables as
Lean lists, wall-clock instants as natural numbers, and fallible functions
as `Except`.  External I/O (HTTP fetches, Redis, the SQL engine itself) is
passed in as explicit environment data; SHA-256 is implemented concretely.
-/

namespace UmbraBridge

/- ## Order status state machine (src/backend/src/models/order.rs) -/

inductive OrderStatus where
  | created
  | awaitingDeposit
  | depositDetected
  | confirming
  | bridging
  | signing
  | sending
  | completed
  | failed
  | refunding
  | refunded
  | expired
deriving DecidableEq, Repr

namespace OrderStatus

def step : OrderStatus → Int
  | .created => 0
  | .awaitingDeposit => 1
  | .depositDetected => 2
  | .confirming => 3
  | .bridging => 4
  | .signing => 5
  | .sending => 6
  | .completed => 7
  | .failed => -1
  | .refunding => -2
  | .refunded => -3
  | .expired => -4

def isTerminal (s : OrderStatus) : Bool :=
  match s with
  | .completed | .failed | .refunded | .expired => true
  | _ => false

/-- Returns valid next states from this state (`valid_transitions`). -/
def validTransitions : OrderStatus → List OrderStatus
  | .created => [.awaitingDeposit, .expired, .failed]
  | .awaitingDeposit => [.depositDetected, .expired, .failed]
  | .depositDetected => [.confirming, .failed]
  | .confirming => [.bridging, .failed]
  | .bridging => [.signing, .failed]
  | .signing => [.sending, .failed]
  | .sending => [.completed, .failed]
  | .completed => []
  | .failed => [.refunding]
  | .refunding => [.refunded, .failed]
  | .refunded => []
  | .expired => []

def canTransitionTo (s next : OrderStatus) : Bool :=
  (s.validTransitions).contains next

/-- Rust `Debug` name of a status, used in error message formatting. -/
def debugName : OrderStatus → String
  | .created => "Created"
  | .awaitingDeposit => "AwaitingDeposit"
  | .depositDetected => "DepositDetected"
  | .confirming => "Confirming"
  | .bridging => "Bridging"
  | .signing => "Signing"
  | .sending => "Sending"
  | .completed => "Completed"
  | .failed => "Failed"
  | .refunding => "Refunding"
  | .refunded => "Refunded"
  | .expired => "Expired"

end OrderStatus

/-- The transition table exactly as the spec's section 4.2 states it,
written independently of `validTransitions` for the refinement check. -/
def specTransitionPairs : List (OrderStatus × OrderStatus) :=
  [(.created, .awaitingDeposit), (.created, .expired), (.created, .failed),
   (.awaitingDeposit, .depositDetected), (.awaitingDeposit, .expired),
   (.awaitingDeposit, .failed),
   (.depositDetected, .confirming), (.depositDetected, .failed),
   (.confirming, .bridging), (.confirming, .failed),
   (.bridging, .signing), (.bridging, .failed),
   (.signing, .sending), (.signing, .failed),
   (.sending, .completed), (.sending, .failed),
   (.failed, .refunding),
   (.refunding, .refunded), (.refunding, .failed)]

def specCanTransition (a b : OrderStatus) : Bool :=
  specTransitionPairs.contains (a, b)

/- ## Application errors (src/backend/src/error.rs) -/

inductive AppError where
  | notFound (msg : String)
  | badRequest (msg : String)
  | unauthorized (msg : String)
  | forbidden (msg : String)
  | conflict (msg : String)
  | rateLimited
  | internal (msg : String)
  | sqlx (msg : String)
  | redisErr (msg : String)
  | reqwest (msg : String)
  | serdeJson (msg : String)
  | jwt (msg : String)
deriving DecidableEq, Repr

/- ## Conversion arithmetic (src/backend/src/services/rate_service.rs) -/

structure ConversionResult where
  fromAmount : Rat
  toAmount : Rat
  rate : Rat
  fee : Rat
  feePercent : Rat
  minReceived : Rat
deriving DecidableEq, Repr

/-- `calculate_conversion` from rate_service.rs; `Decimal` modelled as `Rat`. -/
def calculate_conversion (amount : Rat) (_direction : String) (rate : Rat)
    (feePercent : Rat) (slippage : Rat) : ConversionResult :=
  let hundred : Rat := 100
  let fee := amount * feePercent / hundred
  let netAmount := amount - fee
  let toAmount := netAmount * rate
  let minReceived := toAmount * (1 - slippage / hundred)
  { fromAmount := amount
    toAmount := toAmount
    rate := rate
    fee := fee
    feePercent := feePercent
    minReceived := minReceived }

/- ## SHA-256 (concrete model of the `sha2` crate primitive) -/

namespace SHA256

/-- 2^32, the modulus for 32-bit words. -/
def M32 : Nat := 4294967296

def rotr (x n : Nat) : Nat :=
  ((x >>> n) ||| (x <<< (32 - n))) % M32

def bigSigma0 (x : Nat) : Nat := (rotr x 2) ^^^ (rotr x 13) ^^^ (rotr x 22)

def bigSigma1 (x : Nat) : Nat := (rotr x 6) ^^^ (rotr x 11) ^^^ (rotr x 25)

def smallSigma0 (x : Nat) : Nat := (rotr x 7) ^^^ (rotr x 18) ^^^ (x >>> 3)

def smallSigma1 (x : Nat) : Nat := (rotr x 17) ^^^ (rotr x 19) ^^^ (x >>> 10)

/-- The 64 round constants (decimal). -/
def K : Array Nat :=
  #[1116352408, 1899447441, 3049323471, 3921009573, 961987163, 1508970993,
    2453635748, 2870763221, 3624381080, 310598401, 607225278, 1426881987,
    1925078388, 2162078206, 2614888103, 3248222580, 3835390401, 4022224774,
    264347078, 604807628, 770255983, 1249150122, 1555081692, 1996064986,
    2554220882, 2821834349, 2952996808, 3210313671, 3336571891, 3584528711,
    113926993, 338241895, 666307205, 773529912, 1294757372, 1396182291,
    1695183700, 1986661051, 2177026350, 2456956037, 2730485921, 2820302411,
    3259730800, 3345764771, 3516065817, 3600352804, 4094571909, 275423344,
    430227734, 506948616, 659060556, 883997877, 958139571, 1322822218,
    1537002063, 1747873779, 1955562222, 2024104815, 2227730452, 2361852424,
    2428436474, 2756734187, 3204031479, 3329325298]

/-- The initial hash state (decimal). -/
def initH : Array Nat :=
  #[1779033703, 3144134277, 1013904242, 2773480762,
    1359893119, 2600822924, 528734635, 1541459225]

/-- Big-endian 8-byte encoding of a natural number (the bit-length field). -/
def beBytes8 (n : Nat) : List Nat :=
  [(n >>> 56) % 256, (n >>> 48) % 256, (n >>> 40) % 256, (n >>> 32) % 256,
   (n >>> 24) % 256, (n >>> 16) % 256, (n >>> 8) % 256, n % 256]

/-- Append the 0x80 marker, zero padding to 56 mod 64, and the bit length. -/
def padMessage (msg : List Nat) : List Nat :=
  let z := (119 - msg.length % 64) % 64
  msg ++ [128] ++ List.replicate z 0 ++ beBytes8 (msg.length * 8)

/-- Group bytes into big-endian 32-bit words. -/
def bytesToWords : List Nat → List Nat
  | a :: b :: c :: d :: rest =>
      (a * 16777216 + b * 65536 + c * 256 + d) :: bytesToWords rest
  | _ => []

/-- Split a byte list into 64-byte blocks. -/
def chunk64 : List Nat → List (List Nat)
  | [] => []
  | a :: rest => ((a :: rest).take 64) :: chunk64 ((a :: rest).drop 64)
termination_by l => l.length
decreasing_by simp only [List.length_drop, List.length_cons]; omega

/-- Extend 16 message words to the 64-word round schedule. -/
def schedule (ws : Array Nat) : Array Nat :=
  (List.range 48).foldl
    (fun w j =>
      w.push ((smallSigma1 (w.getD (j + 14) 0) + w.getD (j + 9) 0 +
               smallSigma0 (w.getD (j + 1) 0) + w.getD j 0) % M32))
    ws

/-- One compression round over the running state `(a,b,c,d,e,f,g,h)`. -/
def round (w : Array Nat) (s : Nat × Nat × Nat × Nat × Nat × Nat × Nat × Nat)
    (i : Nat) : Nat × Nat × Nat × Nat × Nat × Nat × Nat × Nat :=
  let (a, b, c, d, e, f, g, h) := s
  let ch := (e &&& f) ^^^ ((e ^^^ 4294967295) &&& g)
  let maj := (a &&& b) ^^^ (a &&& c) ^^^ (b &&& c)
  let t1 := (h + bigSigma1 e + ch + K.getD i 0 + w.getD i 0) % M32
  let t2 := (bigSigma0 a + maj) % M32
  ((t1 + t2) % M32, a, b, c, (d + t1) % M32, e, f, g)

/-- Compress one 64-byte block into the hash state. -/
def compressBlock (hs : Array Nat) (block : List Nat) : Array Nat :=
  let w := schedule (bytesToWords block).toArray
  let s0 := (hs.getD 0 0, hs.getD 1 0, hs.getD 2 0, hs.getD 3 0,
             hs.getD 4 0, hs.getD 5 0, hs.getD 6 0, hs.getD 7 0)
  let s := (List.range 64).foldl (round w) s0
  let (a, b, c, d, e, f, g, h) := s
  #[(hs.getD 0 0 + a) % M32, (hs.getD 1 0 + b) % M32,
    (hs.getD 2 0 + c) % M32, (hs.getD 3 0 + d) % M32,
    (hs.getD 4 0 + e) % M32, (hs.getD 5 0 + f) % M32,
    (hs.getD 6 0 + g) % M32, (hs.getD 7 0 + h) % M32]

/-- SHA-256 digest of a byte sequence, as 32 bytes. -/
def sha256Bytes (msg : List Nat) : List Nat :=
  let blocks := chunk64 (padMessage msg)
  let hFinal := blocks.foldl compressBlock initH
  (hFinal.toList.map
    (fun w => [(w >>> 24) % 256, (w >>> 16) % 256, (w >>> 8) % 256, w % 256])).flatten

/-- Two lowercase hex characters for one byte (`Nat.digitChar` maps
0-15 to 0-9 and lowercase a-f). -/
def byteHex (b : Nat) : List Char :=
  [Nat.digitChar (b / 16 % 16), Nat.digitChar (b % 16)]

/-- Lowercase hex encoding of a byte sequence (the `hex` crate's encode). -/
def hexEncode (bs : List Nat) : String :=
  String.mk (bs.map byteHex).flatten

end SHA256

/-- SHA-256 as a lowercase hex string, mirroring
`hex::encode(Sha256::digest(bytes))`. -/
def sha256Hex (msg : List Nat) : String :=
  SHA256.hexEncode (SHA256.sha256Bytes msg)

/-- UTF-8 bytes of a string, mirroring Rust's `str::as_bytes`. -/
def strBytes (s : String) : List Nat :=
  s.toUTF8.toList.map (fun b => b.toNat)

/- ## Orders (src/backend/src/models/order.rs, services/order_service.rs) -/

/-- Required confirmations per chain (`confirmations_for_chain`). -/
def confirmations_for_chain (chain : String) : Int :=
  let c := chain.toUpper
  if c = "XMR" then 10
  else if c = "BTC" then 3
  else if c = "ETH" then 12
  else if c = "TON" then 1
  else if c = "SOL" then 32
  else if c = "ARB" then 1
  else if c = "BASE" then 1
  else if c = "USDC" ∨ c = "USDT" then 12
  else 12

/-- `BridgeOrder`. The `Uuid` primary key is a `Nat`, timestamps are `Nat`
seconds, `Decimal` fields are `Rat`, and the JSON `metadata` column is kept
as its serialized text. -/
structure Order where
  id : Nat
  orderId : String
  direction : String
  sourceChain : String
  destChain : String
  fromAmount : Rat
  fromCurrency : String
  toAmount : Rat
  toCurrency : String
  destAddress : String
  depositAddress : Option String
  rateAtCreation : Rat
  fee : Rat
  feePercent : Rat
  minReceived : Option Rat
  slippage : Rat
  status : OrderStatus
  step : Int
  depositTxHash : Option String
  withdrawalTxHash : Option String
  confirmationsCurrent : Int
  confirmationsRequired : Int
  telegramUserId : Option Int
  ipAddress : Option String
  errorMessage : Option String
  metadata : String
  expiresAt : Nat
  createdAt : Nat
  updatedAt : Nat
deriving DecidableEq, Repr

structure CreateOrderParams where
  sourceChain : String
  destChain : String
  amount : Rat
  destAddress : String
  slippage : Rat
  telegramUserId : Option Int
deriving DecidableEq, Repr

/-- The row built and inserted by `create_order` (the INSERT's bind list;
`deposit_address` is NULL, status is `Created`, step is `Created.step()`). -/
def create_order_row (params : CreateOrderParams) (rate : Rat) (feePercent : Rat)
    (orderId : String) (id : Nat) (now : Nat) (orderExpiryMinutes : Nat) : Order :=
  let direction := params.sourceChain ++ "_TO_" ++ params.destChain
  let conversion :=
    calculate_conversion params.amount direction rate feePercent params.slippage
  { id := id
    orderId := orderId
    direction := direction
    sourceChain := params.sourceChain
    destChain := params.destChain
    fromAmount := conversion.fromAmount
    fromCurrency := params.sourceChain
    toAmount := conversion.toAmount
    toCurrency := params.destChain
    destAddress := params.destAddress
    depositAddress := none
    rateAtCreation := rate
    fee := conversion.fee
    feePercent := conversion.feePercent
    minReceived := some conversion.minReceived
    slippage := params.slippage
    status := .created
    step := OrderStatus.step .created
    depositTxHash := none
    withdrawalTxHash := none
    confirmationsCurrent := 0
    confirmationsRequired := confirmations_for_chain params.sourceChain
    telegramUserId := params.telegramUserId
    ipAddress := none
    errorMessage := none
    metadata := "\x7b\x7d"
    expiresAt := now + orderExpiryMinutes * 60
    createdAt := now
    updatedAt := now }

/-- `create_order`: fetches the rate (passed in, since it is network I/O),
computes the conversion, and inserts the new row, returning it. -/
def create_order (db : List Order) (params : CreateOrderParams) (rate : Rat)
    (feePercent : Rat) (orderId : String) (id : Nat) (now : Nat)
    (orderExpiryMinutes : Nat) : List Order × Order :=
  let row := create_order_row params rate feePercent orderId id now orderExpiryMinutes
  (db ++ [row], row)

/-- `get_order`: lookup by the human-readable order_id. -/
def get_order (db : List Order) (orderId : String) : Except AppError Order :=
  match db.find? (fun o => o.orderId == orderId) with
  | some o => .ok o
  | none => .error (.notFound ("Order " ++ orderId ++ " not found"))

/-- The UPDATE of `update_status`: set status, derived step, and updated_at
on every row whose order_id matches. -/
def applyStatusUpdate (db : List Order) (orderId : String) (newStatus : OrderStatus)
    (now : Nat) : List Order :=
  db.map (fun o =>
    if o.orderId == orderId then
      { o with status := newStatus, step := newStatus.step, updatedAt := now }
    else o)

/-- `update_status`: enforce the state machine, then persist. -/
def update_status (db : List Order) (orderId : String) (newStatus : OrderStatus)
    (now : Nat) : Except AppError (List Order × Order) :=
  match get_order db orderId with
  | .error e => .error e
  | .ok current =>
    if !(current.status.canTransitionTo newStatus) then
      .error (.conflict ("Cannot transition from " ++ current.status.debugName ++
        " to " ++ newStatus.debugName))
    else
      .ok (applyStatusUpdate db orderId newStatus now,
        { current with status := newStatus, step := newStatus.step, updatedAt := now })

/-- `cancel_order`: only allowed from AwaitingDeposit; sets the order Expired. -/
def cancel_order (db : List Order) (orderId : String) (now : Nat) :
    Except AppError (List Order × Order) :=
  match get_order db orderId with
  | .error e => .error e
  | .ok current =>
    if current.status ≠ OrderStatus.awaitingDeposit then
      .error (.conflict ("Order " ++ orderId ++ " cannot be cancelled in status " ++
        current.status.debugName ++ ". Only awaiting_deposit orders can be cancelled."))
    else
      update_status db orderId .expired now

/- ## Rate engine (src/backend/src/services/rate_service.rs) -/

structure RateData where
  direction : String
  rate : Rat
  source : String
  change24h : Option Rat
  sparkline : List Rat
deriving DecidableEq, Repr

structure CachedRate where
  rate : Rat
  source : String
  change24h : Option Rat
  sparkline : List Rat
deriving DecidableEq, Repr

/-- Network environment: outcome of each upstream price fetch, in the fixed
order the source tries them (CoinGecko, then Binance, then CoinCap).
A price map is an association list from symbol to USD price. -/
structure RateEnv where
  coingecko : Except String (List (String × Rat))
  binance : Except String (List (String × Rat))
  coincap : Except String (List (String × Rat))
deriving Repr

/-- `fetch_prices`: CoinGecko first, Binance fallback, CoinCap last resort. -/
def fetch_prices (env : RateEnv) : Except AppError (List (String × Rat)) :=
  match env.coingecko with
  | .ok prices => .ok prices
  | .error _ =>
    match env.binance with
    | .ok prices => .ok prices
    | .error _ =>
      match env.coincap with
      | .ok prices => .ok prices
      | .error _ => .error (.internal "All price sources failed")

/-- Split at the first occurrence of a separator:
`some (before, after)` when found, `none` otherwise. -/
def breakOnSep (sep : List Char) : List Char → Option (List Char × List Char)
  | [] => none
  | c :: rest =>
    if sep.isPrefixOf (c :: rest) then some ([], (c :: rest).drop sep.length)
    else
      match breakOnSep sep rest with
      | some (pre, post) => some (c :: pre, post)
      | none => none

/-- The characters of the `"_TO_"` separator. -/
def sepTO : List Char := ['_', 'T', 'O', '_']

/-- `parse_direction`: split "XMR_TO_BTC" on "_TO_" into ("XMR", "BTC");
any part count other than two is rejected. -/
def parse_direction (direction : String) : Except AppError (String × String) :=
  match breakOnSep sepTO direction.toList with
  | some (pre, post) =>
    match breakOnSep sepTO post with
    | none => .ok (String.mk pre, String.mk post)
    | some _ => .error (.badRequest ("Invalid direction format: " ++ direction))
  | none => .error (.badRequest ("Invalid direction format: " ++ direction))

def lookupPrice (prices : List (String × Rat)) (sym : String) : Option Rat :=
  (prices.find? (fun p => p.1 == sym)).map (fun p => p.2)

/-- The cache-miss body of `get_rate`. The Redis cache content, the upstream
fetch outcomes, and the DB-derived 24h change and sparkline are environment
inputs; the f64 cross-rate division is modelled exactly over `Rat`. -/
def get_rate (cached : Option CachedRate) (env : RateEnv) (db24hChange : Option Rat)
    (dbSparkline : List Rat) (direction : String) : Except AppError RateData :=
  match cached with
  | some data =>
    .ok { direction := direction, rate := data.rate, source := data.source,
          change24h := data.change24h, sparkline := data.sparkline }
  | none =>
    match fetch_prices env with
    | .error e => .error e
    | .ok prices =>
      match parse_direction direction with
      | .error e => .error e
      | .ok (fromSym, toSym) =>
        match lookupPrice prices fromSym with
        | none => .error (.internal ("No USD price for " ++ fromSym))
        | some fromUsd =>
          match lookupPrice prices toSym with
          | none => .error (.internal ("No USD price for " ++ toSym))
          | some toUsd =>
            if toUsd = 0 then .error (.internal "Denominator price is zero")
            else
              .ok { direction := direction, rate := fromUsd / toUsd,
                    source := "coingecko", change24h := db24hChange,
                    sparkline := dbSparkline }

/- ## Threshold-signing coordinator (src/backend/src/mpc/coordinator.rs) -/

inductive SessionStatus where
  | pending
  | complete
  | failed
deriving DecidableEq, Repr

/-- `SigningSession`; the share map is an association list keyed by signer
id, and `created_at` is a `Nat` instant. -/
structure SigningSession where
  requestId : String
  txDataHash : String
  shares : List (String × List Nat)
  createdAt : Nat
  status : SessionStatus
deriving DecidableEq, Repr

structure MpcCoordinator where
  threshold : Nat
  totalSigners : Nat
  activeRequests : List (String × SigningSession)
  usedRequestIds : List String
deriving DecidableEq, Repr

def MpcCoordinator.new (threshold totalSigners : Nat) : MpcCoordinator :=
  { threshold := threshold, totalSigners := totalSigners,
    activeRequests := [], usedRequestIds := [] }

def lookupSession (c : MpcCoordinator) (requestId : String) : Option SigningSession :=
  (c.activeRequests.find? (fun p => p.1 == requestId)).map (fun p => p.2)

/-- `request_signing`: anti-replay check, then create a Pending session. -/
def request_signing (c : MpcCoordinator) (requestId : String) (txData : List Nat)
    (now : Nat) : Except String MpcCoordinator :=
  if c.usedRequestIds.contains requestId then
    .error ("Signing request `" ++ requestId ++
      "` has already been processed (replay detected)")
  else if (lookupSession c requestId).isSome then
    .error ("Signing session `" ++ requestId ++ "` already exists")
  else
    let session : SigningSession :=
      { requestId := requestId, txDataHash := sha256Hex txData,
        shares := [], createdAt := now, status := .pending }
    .ok { c with activeRequests := (requestId, session) :: c.activeRequests,
                 usedRequestIds := requestId :: c.usedRequestIds }

/-- Insertion by signer id, for the deterministic ordering of `combine_shares`. -/
def insertBySigner (x : String × List Nat) :
    List (String × List Nat) → List (String × List Nat)
  | [] => [x]
  | y :: ys => if x.1 ≤ y.1 then x :: y :: ys else y :: insertBySigner x ys

def sortBySigner (l : List (String × List Nat)) : List (String × List Nat) :=
  l.foldr insertBySigner []

/-- `combine_shares`: domain-separated concatenation hashed to a digest. -/
def combine_shares (session : SigningSession) : List Nat :=
  let ordered := sortBySigner session.shares
  let combined := strBytes "FROST-SIG:" ++ strBytes session.txDataHash ++ [58] ++
    (ordered.map (fun p => p.2)).flatten
  SHA256.sha256Bytes combined

/-- Replace the stored session for `requestId` (the `get_mut` mutation). -/
def updateSession (c : MpcCoordinator) (requestId : String) (s : SigningSession) :
    MpcCoordinator :=
  { c with activeRequests :=
      c.activeRequests.map (fun p => if p.1 == requestId then (p.1, s) else p) }

/-- `submit_share`: store a share; on reaching the threshold, combine,
mark Complete, and return the aggregate. -/
def submit_share (c : MpcCoordinator) (requestId signerId : String)
    (share : List Nat) : Except String (MpcCoordinator × Option (List Nat)) :=
  match lookupSession c requestId with
  | none => .error ("No active session for request `" ++ requestId ++ "`")
  | some session =>
    if session.status ≠ SessionStatus.pending then
      .error ("Session `" ++ requestId ++ "` is no longer pending")
    else if (session.shares.find? (fun p => p.1 == signerId)).isSome then
      .error ("Signer `" ++ signerId ++ "` has already submitted a share for `" ++
        requestId ++ "`")
    else
      let shares' := session.shares ++ [(signerId, share)]
      let session' := { session with shares := shares' }
      if c.threshold ≤ shares'.length then
        let combined := combine_shares session'
        .ok (updateSession c requestId { session' with status := .complete },
          some combined)
      else
        .ok (updateSession c requestId session', none)

/-- `fail_session`: mark a session Failed (e.g. on timeout). -/
def fail_session (c : MpcCoordinator) (requestId : String) : MpcCoordinator :=
  match lookupSession c requestId with
  | some session => updateSession c requestId { session with status := .failed }
  | none => c

/-- A coordinator API call, for quantifying over operation sequences. -/
inductive CoordOp where
  | requestSigning (requestId : String) (txData : List Nat) (now : Nat)
  | submitShare (requestId signerId : String) (share : List Nat)
  | failSession (requestId : String)
deriving DecidableEq, Repr

/-- Apply one call; a failed call leaves the coordinator unchanged. -/
def applyCoordOp (c : MpcCoordinator) : CoordOp → MpcCoordinator
  | .requestSigning rid tx now =>
    match request_signing c rid tx now with
    | .ok c' => c'
    | .error _ => c
  | .submitShare rid sid sh =>
    match submit_share c rid sid sh with
    | .ok (c', _) => c'
    | .error _ => c
  | .failSession rid => fail_session c rid

/-- The coordinator state after a sequence of calls from a fresh coordinator. -/
def runCoord (threshold totalSigners : Nat) (ops : List CoordOp) : MpcCoordinator :=
  ops.foldl applyCoordOp (MpcCoordinator.new threshold totalSigners)

/-- Coordinator well-formedness: every stored session has pairwise-distinct
signer ids and, once Complete, at least `threshold` shares; every active
key is recorded as used; active keys are distinct. -/
def CoordWF (c : MpcCoordinator) : Prop :=
  (∀ p ∈ c.activeRequests,
    ((p.2.shares.map Prod.fst).Nodup ∧
     (p.2.status = SessionStatus.complete → c.threshold ≤ p.2.shares.length))) ∧
  (∀ p ∈ c.activeRequests, p.1 ∈ c.usedRequestIds) ∧
  (c.activeRequests.map Prod.fst).Nodup

/- ## Audit chain (src/backend/src/services/audit_service.rs) -/

structure AuditEntry where
  action : String
  entityType : String
  entityId : Option String
  detailsJson : String
  actor : String
  prevHash : String
  contentHash : String
deriving DecidableEq, Repr

/-- The genesis sentinel `"0".repeat(64)`. -/
def zeroHash : String := String.mk (List.replicate 64 '0')

/-- `content_hash` of the most recent entry (`ORDER BY id DESC LIMIT 1`),
or the genesis sentinel when the log is empty. -/
def lastHash (db : List AuditEntry) : String :=
  match db.getLast? with
  | some e => e.contentHash
  | none => zeroHash

/-- `audit_service::log`: append one hash-chained entry.  The `details`
JSON value is carried in serialized form. -/
def audit_log (db : List AuditEntry) (action entityType : String)
    (entityId : Option String) (detailsJson : String) (actor : String) :
    List AuditEntry :=
  let prevHash := lastHash db
  let entityIdStr := entityId.getD ""
  let content := action ++ entityType ++ entityIdStr ++ detailsJson ++ actor ++ prevHash
  let contentHash := sha256Hex (strBytes content)
  db ++ [{ action := action, entityType := entityType, entityId := entityId,
           detailsJson := detailsJson, actor := actor, prevHash := prevHash,
           contentHash := contentHash }]

structure AuditRequest where
  action : String
  entityType : String
  entityId : Option String
  detailsJson : String
  actor : String
deriving DecidableEq, Repr

/-- The audit table produced by a sequence of `log` calls from empty. -/
def runAudit (reqs : List AuditRequest) : List AuditEntry :=
  reqs.foldl
    (fun db r => audit_log db r.action r.entityType r.entityId r.detailsJson r.actor)
    []

/-- Recompute an entry's hash from its own fields and a given predecessor
hash, as the spec's verification scan does. -/
def recomputeHash (e : AuditEntry) (prev : String) : String :=
  sha256Hex (strBytes
    (e.action ++ e.entityType ++ e.entityId.getD "" ++ e.detailsJson ++ e.actor ++ prev))

/-- The hash chain is intact starting from predecessor hash `prev`. -/
def chainOkFrom (prev : String) : List AuditEntry → Prop
  | [] => True
  | e :: rest =>
    e.prevHash = prev ∧ e.contentHash = recomputeHash e prev ∧
      chainOkFrom e.contentHash rest

def chainOk (db : List AuditEntry) : Prop := chainOkFrom zeroHash db

/-- `lastHash` with an explicit base for the empty log, for induction. -/
def lastHashFrom (p : String) (db : List AuditEntry) : String :=
  match db.getLast? with
  | some e => e.contentHash
  | none => p

/- ## Background drivers (src/backend/src/tasks/) -/

/-- `check_deposit`: every chain branch in the source is a TODO stub that
returns `Ok(None)` (no deposit observed); an order without a deposit
address is also skipped. -/
def check_deposit (order : Order) : Option String :=
  match order.depositAddress with
  | none => none
  | some _ => none

/-- One `poll_deposits` pass of the deposit monitor: only orders in
AwaitingDeposit are selected, and the UPDATE is guarded on that status. -/
def poll_deposits (db : List Order) (now : Nat) : List Order :=
  db.map (fun o =>
    if o.status = OrderStatus.awaitingDeposit then
      match check_deposit o with
      | some txHash =>
        { o with status := .depositDetected, step := OrderStatus.depositDetected.step,
                 depositTxHash := some txHash, updatedAt := now }
      | none => o
    else o)

/-- `fetch_confirmations`: every supported chain branch is a TODO stub
returning the stored `confirmations_current`; unsupported chains yield 0. -/
def fetch_confirmations (o : Order) : Int :=
  let c := o.sourceChain.toUpper
  if c = "XMR" ∨ c = "BTC" ∨ c = "ETH" ∨ c = "ARB" ∨ c = "BASE" ∨
     c = "USDC" ∨ c = "USDT" ∨ c = "TON" ∨ c = "SOL" then
    o.confirmationsCurrent
  else 0

/-- The `new_status` computed by the confirmation checker for one order. -/
def confirmStatus (o : Order) : OrderStatus :=
  if confirmations_for_chain o.sourceChain ≤ fetch_confirmations o then
    OrderStatus.bridging
  else OrderStatus.confirming

/-- One `poll_confirmations` pass: only DepositDetected/Confirming orders. -/
def poll_confirmations (db : List Order) (now : Nat) : List Order :=
  db.map (fun o =>
    if o.status = OrderStatus.depositDetected ∨ o.status = OrderStatus.confirming then
      if confirmStatus o ≠ o.status ∨ fetch_confirmations o ≠ o.confirmationsCurrent then
        { o with status := confirmStatus o, step := (confirmStatus o).step,
                 confirmationsCurrent := fetch_confirmations o,
                 confirmationsRequired := confirmations_for_chain o.sourceChain,
                 updatedAt := now }
      else o
    else o)

/-- One `expire_orders` pass of the expiry sweeper: the batch UPDATE is
guarded on `status = 'awaiting_deposit' AND expires_at < now`. -/
def expire_orders (db : List Order) (now : Nat) : List Order :=
  db.map (fun o =>
    if o.status = OrderStatus.awaitingDeposit ∧ o.expiresAt < now then
      { o with status := .expired, step := OrderStatus.expired.step, updatedAt := now }
    else o)

/-- `admin_refund` (routes/admin.rs): only Failed orders can be refunded. -/
def admin_refund (db : List Order) (orderId : String) (now : Nat) :
    Except AppError (List Order × Order) :=
  match get_order db orderId with
  | .error e => .error e
  | .ok order =>
    if order.status ≠ OrderStatus.failed then
      .error (.conflict ("Order " ++ orderId ++ " is in status " ++
        order.status.debugName ++ ", only failed orders can be refunded"))
    else
      update_status db orderId .refunding now

/- ## Withdrawal processor (src/backend/src/tasks/withdrawal_processor.rs) -/

/-- The direct UPDATE used by the processor, keyed on the UUID column. -/
def setStatusById (db : List Order) (id : Nat) (s : OrderStatus) (now : Nat) :
    List Order :=
  db.map (fun o =>
    if o.id == id then { o with status := s, step := s.step, updatedAt := now } else o)

/-- The placeholder "broadcast" hash: `"0x"` ++ hex of the first
`min(16, len)` bytes of the order handle. -/
def broadcast_placeholder_hash (orderId : String) : String :=
  "0x" ++ SHA256.hexEncode ((strBytes orderId).take 16)

/-- `process_withdrawal`: requires Bridging, then Signing → Sending →
Completed.  Both the MPC hand-off inside `transition_to_signing` and the
chain broadcast inside `broadcast_transaction` are TODO placeholders in the
source: the first succeeds immediately, the second returns the
deterministic dummy hash, so no external service is consulted. -/
def process_withdrawal (db : List Order) (orderId : String) (now : Nat) :
    Except String (List Order) :=
  match db.find? (fun o => o.orderId == orderId) with
  | none => .error ("Order " ++ orderId ++ " not found")
  | some order =>
    if order.status ≠ OrderStatus.bridging then
      .error ("Order " ++ orderId ++ " is not in Bridging state")
    else
      let db1 := setStatusById db order.id .signing now
      let db2 := setStatusById db1 order.id .sending now
      let txHash := broadcast_placeholder_hash order.orderId
      let db3 := db2.map (fun o =>
        if o.id == order.id then
          { o with status := .completed, step := OrderStatus.completed.step,
                   withdrawalTxHash := some txHash, updatedAt := now }
        else o)
      .ok db3

/- ## Whole-system order mutations (every code path that writes order rows) -/

/-- Every operation in the program that writes `bridge_orders` rows:
the create/cancel routes, the admin refund route, the three periodic
drivers, and the per-order withdrawal processor. -/
inductive SysOp where
  | createOp (params : CreateOrderParams) (rate feePercent : Rat) (orderId : String)
      (id : Nat) (now orderExpiryMinutes : Nat)
  | cancelOp (orderId : String) (now : Nat)
  | refundOp (orderId : String) (now : Nat)
  | depositTick (now : Nat)
  | confirmTick (now : Nat)
  | expiryTick (now : Nat)
  | withdrawOp (orderId : String) (now : Nat)

/-- Apply one operation; a request that errors leaves the table unchanged. -/
def applySysOp (db : List Order) : SysOp → List Order
  | .createOp params rate feePercent oid id now mins =>
    (create_order db params rate feePercent oid id now mins).1
  | .cancelOp oid now =>
    match cancel_order db oid now with
    | .ok (db', _) => db'
    | .error _ => db
  | .refundOp oid now =>
    match admin_refund db oid now with
    | .ok (db', _) => db'
    | .error _ => db
  | .depositTick now => poll_deposits db now
  | .confirmTick now => poll_confirmations db now
  | .expiryTick now => expire_orders db now
  | .withdrawOp oid now =>
    match process_withdrawal db oid now with
    | .ok db' => db'
    | .error _ => db

/- ## Sample data for concrete instantiations -/

def sampleParams : CreateOrderParams :=
  { sourceChain := "XMR", destChain := "BTC", amount := 1.5,
    destAddress := "bc1qexampledest", slippage := 0.5, telegramUserId := none }

def sampleOrder : Order :=
  create_order_row sampleParams 0.005 0.3 "br_0123456789ab" 1 1000 30

def sampleAwaitingOrder : Order :=
  { sampleOrder with status := .awaitingDeposit, step := 1 }

def sampleBridgingOrder : Order :=
  { sampleOrder with status := .bridging, step := 4 }

/-- Primary and exchange sources down (HTTP 500), secondary aggregator up. -/
def failoverEnv : RateEnv :=
  { coingecko := .error "500 Internal Server Error"
    binance := .error "500 Internal Server Error"
    coincap := .ok [("XMR", 150), ("BTC", 30000), ("ETH", 2000),
                    ("SOL", 100), ("TON", 5), ("USDT", 1), ("USDC", 1)] }

/-- All three price sources down. -/
def allFailEnv : RateEnv :=
  { coingecko := .error "500 Internal Server Error"
    binance := .error "500 Internal Server Error"
    coincap := .error "500 Internal Server Error" }

/- ## Theorems -/

/-- C1: the order-status transition relation is exactly the table of spec
section 4.2 (`can_transition_to(a,b)` is true precisely for the listed
pairs, with no pair out of Completed, Refunded, or Expired), and
`update_status` returns a Conflict error, leaving the pair unapplied, for
every pair outside the relation — in particular for a transition to
Bridging while the order is Created. -/
theorem transition_relation_matches_spec :
    (∀ a b : OrderStatus, a.canTransitionTo b = specCanTransition a b) ∧
    (∀ (db : List Order) (oid : String) (ns : OrderStatus) (now : Nat) (o : Order),
      get_order db oid = .ok o → o.status.canTransitionTo ns = false →
      ∃ msg, update_status db oid ns now = .error (.conflict msg)) ∧
    (∀ (db : List Order) (oid : String) (now : Nat) (o : Order),
      get_order db oid = .ok o → o.status = OrderStatus.created →
      ∃ msg, update_status db oid .bridging now = .error (.conflict msg)) := by
  refine ⟨fun a b => by cases a <;> cases b <;> rfl, ?_, ?_⟩
  · intro db oid ns now o hget hcan
    refine ⟨"Cannot transition from " ++ o.status.debugName ++ " to " ++
      ns.debugName, ?_⟩
    simp [update_status, hget, hcan]
  · intro db oid now o hget hst
    have hcan : o.status.canTransitionTo .bridging = false := by
      rw [hst]; decide
    refine ⟨"Cannot transition from " ++ o.status.debugName ++ " to " ++
      OrderStatus.bridging.debugName, ?_⟩
    simp [update_status, hget, hcan]

/-- C1 witness: a Created order cannot be moved to Bridging. -/
theorem transition_relation_matches_spec_witness :
    ∃ msg, update_status [sampleOrder] "br_0123456789ab" .bridging 1000 =
      .error (.conflict msg) :=
  transition_relation_matches_spec.2.2 [sampleOrder] "br_0123456789ab" 1000
    sampleOrder (by rfl) (by rfl)

/-- C2: `calculate_conversion` returns `fee = amount * fee_percent / 100`,
`to_amount = (amount - fee) * rate`, `min_received = to_amount *
(1 - slippage/100)`, passing `from_amount`, `rate`, `fee_percent` through;
at amount 1.5, rate 0.005, fee_percent 0.3, slippage 0.5 it yields fee
0.0045, to_amount 0.0074775 (within 5e-7 of the spec's rounded 0.007478),
and min_received = to_amount * 0.995. -/
theorem calculate_conversion_correct :
    (∀ (amount rate feePercent slippage : Rat) (direction : String),
      (calculate_conversion amount direction rate feePercent slippage).fee =
        amount * feePercent / 100 ∧
      (calculate_conversion amount direction rate feePercent slippage).toAmount =
        (amount - amount * feePercent / 100) * rate ∧
      (calculate_conversion amount direction rate feePercent slippage).minReceived =
        (calculate_conversion amount direction rate feePercent slippage).toAmount *
          (1 - slippage / 100) ∧
      (calculate_conversion amount direction rate feePercent slippage).fromAmount =
        amount ∧
      (calculate_conversion amount direction rate feePercent slippage).rate = rate ∧
      (calculate_conversion amount direction rate feePercent slippage).feePercent =
        feePercent) ∧
    ((calculate_conversion 1.5 "XMR_TO_BTC" 0.005 0.3 0.5).fee = 0.0045 ∧
     (calculate_conversion 1.5 "XMR_TO_BTC" 0.005 0.3 0.5).toAmount = 0.0074775 ∧
     |(calculate_conversion 1.5 "XMR_TO_BTC" 0.005 0.3 0.5).toAmount - 0.007478| ≤
       1 / 2000000 ∧
     (calculate_conversion 1.5 "XMR_TO_BTC" 0.005 0.3 0.5).minReceived =
       (calculate_conversion 1.5 "XMR_TO_BTC" 0.005 0.3 0.5).toAmount * 0.995) := by
  refine ⟨fun amount rate feePercent slippage direction =>
    ⟨rfl, rfl, rfl, rfl, rfl, rfl⟩, ?_, ?_, ?_, ?_⟩
  · norm_num [calculate_conversion]
  · norm_num [calculate_conversion]
  · rw [abs_sub_le_iff]
    constructor <;> norm_num [calculate_conversion]
  · norm_num [calculate_conversion]

/-- C3 counterexample: the order returned by `create_order` has status
Created, not AwaitingDeposit, refuting the claim as stated. -/
theorem create_order_status_counterexample :
    (create_order [] sampleParams 0.005 0.3 "br_0123456789ab" 1 1000 30).2.status =
      OrderStatus.created ∧
    OrderStatus.created ≠ OrderStatus.awaitingDeposit :=
  ⟨rfl, by decide⟩

/-- C3 amended: when a client creates an order, the Order Store writes the
new row with status Created (and a time-bounded expiry): the order
returned by `create_order` has status Created, is in the table, and
expires `order_expiry_minutes` after creation. -/
theorem create_order_initial_status (db : List Order) (params : CreateOrderParams)
    (rate feePercent : Rat) (oid : String) (id now mins : Nat) :
    (create_order db params rate feePercent oid id now mins).2.status =
      OrderStatus.created ∧
    (create_order db params rate feePercent oid id now mins).2 ∈
      (create_order db params rate feePercent oid id now mins).1 ∧
    (create_order db params rate feePercent oid id now mins).2.expiresAt =
      now + mins * 60 :=
  ⟨rfl, by simp [create_order], rfl⟩

/-- C8: `cancel_order` succeeds exactly when the order is in
AwaitingDeposit, transitioning it to Expired; in every other status it
returns a Conflict error and the table is not updated. -/
theorem cancel_order_spec (db : List Order) (oid : String) (now : Nat) (o : Order)
    (hget : get_order db oid = .ok o) :
    ((∃ r, cancel_order db oid now = .ok r) ↔
      o.status = OrderStatus.awaitingDeposit) ∧
    (∀ db' o', cancel_order db oid now = .ok (db', o') →
      o'.status = OrderStatus.expired ∧ o'.orderId = o.orderId ∧
      db' = applyStatusUpdate db oid .expired now) ∧
    (o.status ≠ OrderStatus.awaitingDeposit →
      ∃ msg, cancel_order db oid now = .error (.conflict msg)) := by
  by_cases h : o.status = OrderStatus.awaitingDeposit
  · have hct : OrderStatus.canTransitionTo .awaitingDeposit .expired = true := by decide
    have hcancel : cancel_order db oid now =
        .ok (applyStatusUpdate db oid .expired now,
          { o with status := .expired, step := OrderStatus.expired.step,
                   updatedAt := now }) := by
      simp [cancel_order, update_status, hget, h, hct]
    refine ⟨⟨fun _ => h, fun _ => ⟨_, hcancel⟩⟩, ?_, fun hne => absurd h hne⟩
    intro db' o' hok
    rw [hcancel] at hok
    injection hok with hpair
    injection hpair with h1 h2
    exact ⟨by rw [← h2], by rw [← h2], h1.symm⟩
  · have hmsg : cancel_order db oid now = .error (.conflict ("Order " ++ oid ++
        " cannot be cancelled in status " ++ o.status.debugName ++
        ". Only awaiting_deposit orders can be cancelled.")) := by
      simp [cancel_order, hget, h]
    set msg := "Order " ++ oid ++ " cannot be cancelled in status " ++
      o.status.debugName ++ ". Only awaiting_deposit orders can be cancelled."
    refine ⟨⟨?_, fun hst => absurd hst h⟩, ?_, fun _ => ⟨msg, hmsg⟩⟩
    · rintro ⟨r, hr⟩
      rw [hmsg] at hr
      exact absurd hr (by simp)
    · intro db' o' hok
      rw [hmsg] at hok
      exact absurd hok (by simp)

/-- C8 witness: cancellation succeeds on a concrete AwaitingDeposit order. -/
theorem cancel_order_spec_witness :
    (∃ r, cancel_order [sampleAwaitingOrder] "br_0123456789ab" 1005 = .ok r) ↔
      sampleAwaitingOrder.status = OrderStatus.awaitingDeposit :=
  (cancel_order_spec [sampleAwaitingOrder] "br_0123456789ab" 1005 sampleAwaitingOrder
    (by rfl)).1

/-- C7 counterexample: with the primary aggregator and the exchange ticker
failing and the secondary aggregator succeeding, `get_rate` succeeds but the
returned RateData carries source "coingecko", not the tertiary source's tag
("coincap"); and when all three fail the error is the generic Internal
"All price sources failed" (HTTP 500), not a dedicated UpstreamUnavailable
kind (the error type has none). -/
theorem get_rate_source_tag_counterexample :
    (∃ d, get_rate none failoverEnv none [] "XMR_TO_BTC" = .ok d ∧
      d.source = "coingecko") ∧
    "coingecko" ≠ "coincap" ∧
    get_rate none allFailEnv none [] "XMR_TO_BTC" =
      .error (.internal "All price sources failed") := by
  refine ⟨⟨{ direction := "XMR_TO_BTC", rate := (150 : Rat) / 30000,
             source := "coingecko", change24h := none, sparkline := [] },
           by rfl, rfl⟩, by decide, by rfl⟩

/-- C7 amended: on a cache miss the three price sources are tried in the
fixed order CoinGecko, Binance, CoinCap, and the first success wins; when
all three fail, `get_rate` propagates the Internal "All price sources
failed" error; but any successful `get_rate` result carries the hardcoded
source tag "coingecko", regardless of which source actually succeeded. -/
theorem rate_failover_order (env : RateEnv) :
    (∀ p, env.coingecko = .ok p → fetch_prices env = .ok p) ∧
    (∀ e p, env.coingecko = .error e → env.binance = .ok p →
      fetch_prices env = .ok p) ∧
    (∀ e1 e2 p, env.coingecko = .error e1 → env.binance = .error e2 →
      env.coincap = .ok p → fetch_prices env = .ok p) ∧
    (∀ e1 e2 e3, env.coingecko = .error e1 → env.binance = .error e2 →
      env.coincap = .error e3 →
      fetch_prices env = .error (.internal "All price sources failed") ∧
      get_rate none env none [] "XMR_TO_BTC" =
        .error (.internal "All price sources failed")) ∧
    (∀ dir h24 spark d, get_rate none env h24 spark dir = .ok d →
      d.source = "coingecko") := by
  refine ⟨?_, ?_, ?_, ?_, ?_⟩
  · intro p h
    simp [fetch_prices, h]
  · intro e p h1 h2
    simp [fetch_prices, h1, h2]
  · intro e1 e2 p h1 h2 h3
    simp [fetch_prices, h1, h2, h3]
  · intro e1 e2 e3 h1 h2 h3
    have hfp : fetch_prices env = .error (.internal "All price sources failed") := by
      simp [fetch_prices, h1, h2, h3]
    exact ⟨hfp, by simp [get_rate, hfp]⟩
  · intro dir h24 spark d hok
    simp only [get_rate] at hok
    split at hok
    · exact absurd hok (by simp)
    · split at hok
      · exact absurd hok (by simp)
      · split at hok
        · exact absurd hok (by simp)
        · split at hok
          · exact absurd hok (by simp)
          · split at hok
            · exact absurd hok (by simp)
            · cases hok
              rfl

/-- C7 amended witness: concrete failover environment. -/
theorem rate_failover_order_witness :
    fetch_prices failoverEnv =
      .ok [("XMR", 150), ("BTC", 30000), ("ETH", 2000),
           ("SOL", 100), ("TON", 5), ("USDT", 1), ("USDC", 1)] :=
  (rate_failover_order failoverEnv).2.2.1 "500 Internal Server Error"
    "500 Internal Server Error" _ rfl rfl rfl

/-- C10: for every order in Bridging, `process_withdrawal` completes —
both the MPC hand-off and the chain broadcast are source-level
placeholders, so no chain adapter or coordinator is consulted — and sets
`withdrawal_tx_hash` to "0x" followed by the hex encoding of the first
(up to) 16 bytes of the order handle, a deterministic function of the
handle rather than a real broadcast hash, while marking the order
Completed. -/
theorem process_withdrawal_placeholder (db : List Order) (oid : String) (now : Nat)
    (o : Order) (hfind : db.find? (fun x => x.orderId == oid) = some o)
    (hst : o.status = OrderStatus.bridging) :
    ∃ db', process_withdrawal db oid now = .ok db' ∧
      ∀ x ∈ db', x.id = o.id →
        x.status = OrderStatus.completed ∧
        x.withdrawalTxHash =
          some ("0x" ++ SHA256.hexEncode ((strBytes o.orderId).take 16)) := by
  have hok : process_withdrawal db oid now =
      .ok ((setStatusById (setStatusById db o.id .signing now) o.id .sending now).map
        (fun x =>
          if x.id == o.id then
            { x with status := .completed, step := OrderStatus.completed.step,
                     withdrawalTxHash := some (broadcast_placeholder_hash o.orderId),
                     updatedAt := now }
          else x)) := by
    simp [process_withdrawal, hfind, hst]
  refine ⟨_, hok, ?_⟩
  intro x hx hid
  rcases List.mem_map.1 hx with ⟨y, _, hxy⟩
  by_cases hyid : y.id == o.id
  · rw [← hxy]
    simp [hyid, broadcast_placeholder_hash]
  · rw [← hxy] at hid
    simp [hyid] at hid
    exact absurd hid (by simpa using hyid)

/-- C10 witness: a concrete Bridging order is completed with the
placeholder hash. -/
theorem process_withdrawal_placeholder_witness :
    ∃ db', process_withdrawal [sampleBridgingOrder] "br_0123456789ab" 7 = .ok db' ∧
      ∀ x ∈ db', x.id = sampleBridgingOrder.id →
        x.status = OrderStatus.completed ∧
        x.withdrawalTxHash =
          some ("0x" ++ SHA256.hexEncode
            ((strBytes sampleBridgingOrder.orderId).take 16)) :=
  process_withdrawal_placeholder [sampleBridgingOrder] "br_0123456789ab" 7
    sampleBridgingOrder (by rfl) (by rfl)

theorem lastHashFrom_cons (p : String) (x : AuditEntry) (xs : List AuditEntry) :
    lastHashFrom p (x :: xs) = lastHashFrom x.contentHash xs := by
  cases xs with
  | nil => rfl
  | cons y ys =>
    unfold lastHashFrom
    rw [List.getLast?_cons_cons]
    cases hz : (y :: ys).getLast? with
    | none => exact absurd hz (by simp)
    | some z => rfl

theorem chainOkFrom_append (e : AuditEntry) (db : List AuditEntry) (p : String)
    (hok : chainOkFrom p db) (hprev : e.prevHash = lastHashFrom p db)
    (hhash : e.contentHash = recomputeHash e e.prevHash) :
    chainOkFrom p (db ++ [e]) := by
  induction db generalizing p with
  | nil =>
    simp only [lastHashFrom, List.getLast?] at hprev
    exact ⟨hprev, by rw [hhash, hprev], trivial⟩
  | cons x xs ih =>
    obtain ⟨h1, h2, h3⟩ := hok
    rw [List.cons_append]
    exact ⟨h1, h2, ih x.contentHash h3 (by rwa [lastHashFrom_cons] at hprev)⟩

theorem audit_log_chainOk (db : List AuditEntry) (action entityType : String)
    (entityId : Option String) (detailsJson actor : String) (hok : chainOk db) :
    chainOk (audit_log db action entityType entityId detailsJson actor) := by
  apply chainOkFrom_append _ _ _ hok
  · rfl
  · rfl

/-- C6: every entry appended by `audit_service::log` has `content_hash`
equal to the lowercase-hex SHA-256 of action || entity_type || entity_id
|| details JSON || actor || prev_hash, where prev_hash is the most recent
entry's content_hash or 64 zero characters for an empty log; consequently
any log built by a sequence of appends recomputes correctly at every
adjacent pair. -/
theorem audit_chain_integrity :
    (∀ (db : List AuditEntry) (action entityType : String)
       (entityId : Option String) (detailsJson actor : String),
      ∃ e, audit_log db action entityType entityId detailsJson actor = db ++ [e] ∧
        e.prevHash = lastHash db ∧
        e.contentHash = sha256Hex (strBytes (action ++ entityType ++
          entityId.getD "" ++ detailsJson ++ actor ++ lastHash db)) ∧
        (db = [] → e.prevHash = zeroHash)) ∧
    (∀ reqs : List AuditRequest, chainOk (runAudit reqs)) := by
  constructor
  · intro db action entityType entityId detailsJson actor
    exact ⟨_, rfl, rfl, rfl, fun h => by rw [h]; rfl⟩
  · have hgen : ∀ (reqs : List AuditRequest) (db : List AuditEntry), chainOk db →
        chainOk (reqs.foldl
          (fun db r =>
            audit_log db r.action r.entityType r.entityId r.detailsJson r.actor)
          db) := by
      intro reqs
      induction reqs with
      | nil => exact fun db h => h
      | cons r rs ih =>
        intro db h
        exact ih _ (audit_log_chainOk db r.action r.entityType r.entityId
          r.detailsJson r.actor h)
    exact fun reqs => hgen reqs [] trivial

/-- C6 witness: one concrete append on the empty log. -/
theorem audit_chain_integrity_witness :
    ∃ e, audit_log [] "order_created" "bridge_order" (some "br_0123456789ab")
        "\x7b\x7d" "system" = [] ++ [e] ∧
      e.prevHash = lastHash [] ∧
      e.contentHash = sha256Hex (strBytes ("order_created" ++ "bridge_order" ++
        (some "br_0123456789ab").getD "" ++ "\x7b\x7d" ++ "system" ++
        lastHash [])) ∧
      (([] : List AuditEntry) = [] → e.prevHash = zeroHash) :=
  audit_chain_integrity.1 [] "order_created" "bridge_order"
    (some "br_0123456789ab") "\x7b\x7d" "system"

theorem key_mem_iff_find?_isSome {A : Type} (l : List (String × A)) (k : String) :
    k ∈ l.map Prod.fst ↔ (l.find? (fun p => p.1 == k)).isSome := by
  induction l with
  | nil => simp
  | cons p l ih =>
    cases hc : (p.1 == k) with
    | true =>
      have hpk : p.1 = k := by simpa using hc
      simp [List.find?_cons_of_pos _ hc, hpk]
    | false =>
      have hpk : p.1 ≠ k := by simpa using hc
      rw [List.find?_cons_of_neg _ (by simp [hc])]
      simp only [List.map_cons, List.mem_cons]
      rw [← ih]
      constructor
      · rintro (h | h)
        · exact absurd h.symm hpk
        · exact h
      · exact fun h => Or.inr h

theorem updateSession_keys {A : Type} (l : List (String × A)) (k : String) (s : A) :
    (l.map (fun p => if p.1 == k then (p.1, s) else p)).map Prod.fst =
      l.map Prod.fst := by
  induction l with
  | nil => rfl
  | cons p l ih =>
    simp only [List.map_cons]
    rw [ih]
    cases hc : (p.1 == k) with
    | true => rfl
    | false => rfl

theorem find?_map_update {A : Type} (l : List (String × A)) (k : String) (s : A)
    (h : (l.find? (fun p => p.1 == k)).isSome) :
    (l.map (fun p => if p.1 == k then (p.1, s) else p)).find?
      (fun p => p.1 == k) = some (k, s) := by
  induction l with
  | nil => simp at h
  | cons p l ih =>
    simp only [List.map_cons]
    cases hc : (p.1 == k) with
    | true =>
      have hpk : p.1 = k := by simpa using hc
      show List.find? (fun p => p.1 == k)
        ((p.1, s) :: l.map (fun p => if p.1 == k then (p.1, s) else p)) =
          some (k, s)
      rw [List.find?_cons_of_pos (p := fun q => q.1 == k) (a := (p.1, s)) _ hc, hpk]
    | false =>
      show List.find? (fun p => p.1 == k)
        (p :: l.map (fun p => if p.1 == k then (p.1, s) else p)) = some (k, s)
      rw [List.find?_cons_of_neg (p := fun q => q.1 == k) (a := p) _ (by simp [hc])]
      rw [List.find?_cons_of_neg (p := fun q => q.1 == k) (a := p) _
        (by simp [hc])] at h
      exact ih h

theorem lookupSession_update_of_found (c : MpcCoordinator) (rid : String)
    (s0 s : SigningSession) (h : lookupSession c rid = some s0) :
    lookupSession (updateSession c rid s) rid = some s := by
  have hsome : (c.activeRequests.find? (fun p => p.1 == rid)).isSome := by
    unfold lookupSession at h
    cases hf : c.activeRequests.find? (fun p => p.1 == rid) with
    | none => rw [hf] at h; simp at h
    | some q => simp
  show ((c.activeRequests.map
    (fun p => if p.1 == rid then (p.1, s) else p)).find?
      (fun p => p.1 == rid)).map (fun p => p.2) = some s
  rw [find?_map_update c.activeRequests rid s hsome]
  rfl

theorem lookupSession_found_WF (c : MpcCoordinator) (rid : String)
    (s : SigningSession) (h : CoordWF c) (hlk : lookupSession c rid = some s) :
    (s.shares.map Prod.fst).Nodup ∧
    (s.status = SessionStatus.complete → c.threshold ≤ s.shares.length) := by
  unfold lookupSession at hlk
  cases hf : c.activeRequests.find? (fun p => p.1 == rid) with
  | none => rw [hf] at hlk; simp at hlk
  | some p0 =>
    rw [hf] at hlk
    simp only [Option.map_some', Option.some.injEq] at hlk
    have hmem := List.mem_of_find?_eq_some hf
    have := h.1 p0 hmem
    rwa [hlk] at this

theorem lookupSession_key_used (c : MpcCoordinator) (rid : String)
    (h : CoordWF c) (hlk : (lookupSession c rid).isSome) :
    rid ∈ c.usedRequestIds := by
  unfold lookupSession at hlk
  cases hf : c.activeRequests.find? (fun p => p.1 == rid) with
  | none => rw [hf] at hlk; simp at hlk
  | some p0 =>
    have hmem := List.mem_of_find?_eq_some hf
    have hbeq := List.find?_some hf
    have : p0.1 = rid := by simpa using hbeq
    rw [← this]
    exact h.2.1 p0 hmem

theorem updateSession_WF (c : MpcCoordinator) (rid : String) (s : SigningSession)
    (h : CoordWF c)
    (hs : (s.shares.map Prod.fst).Nodup ∧
          (s.status = SessionStatus.complete → c.threshold ≤ s.shares.length)) :
    CoordWF (updateSession c rid s) := by
  obtain ⟨h1, h2, h3⟩ := h
  refine ⟨?_, ?_, ?_⟩
  · intro p hp
    rcases List.mem_map.1 hp with ⟨q, hq, hpq⟩
    cases hc : (q.1 == rid) with
    | true =>
      rw [← hpq]
      simp only [hc, if_true]
      exact hs
    | false =>
      rw [← hpq]
      simp only [hc, if_false]
      exact h1 q hq
  · intro p hp
    rcases List.mem_map.1 hp with ⟨q, hq, hpq⟩
    have hfst : p.1 = q.1 := by
      rw [← hpq]
      cases hc : (q.1 == rid) <;> simp [hc]
    show p.1 ∈ c.usedRequestIds
    rw [hfst]
    exact h2 q hq
  · show (((c.activeRequests.map
      (fun p => if p.1 == rid then (p.1, s) else p))).map Prod.fst).Nodup
    rw [updateSession_keys]
    exact h3

theorem lookupSession_isSome_eq (c : MpcCoordinator) (rid : String) :
    (lookupSession c rid).isSome =
      (c.activeRequests.find? (fun p => p.1 == rid)).isSome := by
  unfold lookupSession
  cases c.activeRequests.find? (fun p => p.1 == rid) <;> rfl

theorem request_signing_ok_shape (c : MpcCoordinator) (rid : String)
    (tx : List Nat) (now : Nat) (c' : MpcCoordinator)
    (h : request_signing c rid tx now = .ok c') :
    c.usedRequestIds.contains rid = false ∧
    (lookupSession c rid).isSome = false ∧
    c' = { c with
      activeRequests := (rid,
        { requestId := rid, txDataHash := sha256Hex tx, shares := [],
          createdAt := now, status := .pending }) :: c.activeRequests,
      usedRequestIds := rid :: c.usedRequestIds } := by
  unfold request_signing at h
  split at h
  · exact absurd h (by simp)
  · split at h
    · exact absurd h (by simp)
    · rename_i h1 h2
      refine ⟨by simpa using h1, by simpa using h2, ?_⟩
      injection h with h3
      exact h3.symm

theorem submit_share_ok_shape (c : MpcCoordinator) (rid sid : String)
    (share : List Nat) (c' : MpcCoordinator) (out : Option (List Nat))
    (h : submit_share c rid sid share = .ok (c', out)) :
    ∃ s, lookupSession c rid = some s ∧ s.status = SessionStatus.pending ∧
      (s.shares.find? (fun p => p.1 == sid)).isSome = false ∧
      ((c.threshold ≤ s.shares.length + 1 ∧
        c' = updateSession c rid { requestId := s.requestId, txDataHash := s.txDataHash, shares := s.shares ++ [(sid, share)], createdAt := s.createdAt, status := SessionStatus.complete } ∧
        out = some (combine_shares { requestId := s.requestId, txDataHash := s.txDataHash, shares := s.shares ++ [(sid, share)], createdAt := s.createdAt, status := s.status })) ∨
       (¬ c.threshold ≤ s.shares.length + 1 ∧
        c' = updateSession c rid { requestId := s.requestId, txDataHash := s.txDataHash, shares := s.shares ++ [(sid, share)], createdAt := s.createdAt, status := s.status } ∧
        out = none)) := by
  unfold submit_share at h
  split at h
  · exact absurd h (by simp)
  · rename_i s hlk
    by_cases hst : s.status ≠ SessionStatus.pending
    · rw [if_pos hst] at h
      exact absurd h (by simp)
    · rw [if_neg hst] at h
      have hpend : s.status = SessionStatus.pending := not_not.1 hst
      by_cases hdup : (s.shares.find? (fun p => p.1 == sid)).isSome = true
      · rw [if_pos hdup] at h
        exact absurd h (by simp)
      · rw [if_neg hdup] at h
        have hdup' : (s.shares.find? (fun p => p.1 == sid)).isSome = false := by
          cases hfs : (s.shares.find? (fun p => p.1 == sid)).isSome with
          | true => exact absurd hfs hdup
          | false => rfl
        by_cases hthr : c.threshold ≤ (s.shares ++ [(sid, share)]).length
        · rw [if_pos hthr] at h
          injection h with hpair
          have h1 := congrArg Prod.fst hpair
          have h2 := congrArg Prod.snd hpair
          simp only at h1 h2
          refine ⟨s, hlk, hpend, hdup', Or.inl ⟨?_, h1.symm, h2.symm⟩⟩
          simpa using hthr
        · rw [if_neg hthr] at h
          injection h with hpair
          have h1 := congrArg Prod.fst hpair
          have h2 := congrArg Prod.snd hpair
          simp only at h1 h2
          refine ⟨s, hlk, hpend, hdup', Or.inr ⟨?_, h1.symm, h2.symm⟩⟩
          simpa using hthr

theorem coordWF_new (t n : Nat) : CoordWF (MpcCoordinator.new t n) := by
  refine ⟨?_, ?_, ?_⟩
  · intro p hp
    exact absurd hp (List.not_mem_nil p)
  · intro p hp
    exact absurd hp (List.not_mem_nil p)
  · exact List.nodup_nil

theorem applyCoordOp_WF (c : MpcCoordinator) (op : CoordOp) (h : CoordWF c) :
    CoordWF (applyCoordOp c op) ∧ (applyCoordOp c op).threshold = c.threshold := by
  cases op with
  | requestSigning rid tx now =>
    simp only [applyCoordOp]
    cases hr : request_signing c rid tx now with
    | error e => exact ⟨h, rfl⟩
    | ok c' =>
      obtain ⟨h1, h2, rfl⟩ := request_signing_ok_shape c rid tx now c' hr
      refine ⟨⟨?_, ?_, ?_⟩, rfl⟩
      · intro p hp
        rcases List.mem_cons.1 hp with rfl | hp'
        · exact ⟨List.nodup_nil, fun hcomp => absurd
            (show SessionStatus.pending = SessionStatus.complete from hcomp)
            (by decide)⟩
        · exact h.1 p hp'
      · intro p hp
        rcases List.mem_cons.1 hp with rfl | hp'
        · exact List.mem_cons_self _ _
        · exact List.mem_cons_of_mem _ (h.2.1 p hp')
      · refine List.Nodup.cons ?_ h.2.2
        intro hmem
        have hfind := (key_mem_iff_find?_isSome c.activeRequests rid).1 hmem
        rw [← lookupSession_isSome_eq] at hfind
        rw [h2] at hfind
        exact Bool.false_ne_true hfind
  | submitShare rid sid share =>
    simp only [applyCoordOp]
    cases hs : submit_share c rid sid share with
    | error e => exact ⟨h, rfl⟩
    | ok pr =>
      obtain ⟨s, hlk, hpend, hdup, hcase⟩ :=
        submit_share_ok_shape c rid sid share pr.1 pr.2 (by rw [hs])
      have hsWF := lookupSession_found_WF c rid s h hlk
      have hsid : sid ∉ s.shares.map Prod.fst := by
        intro hmem
        have := (key_mem_iff_find?_isSome s.shares sid).1 hmem
        rw [hdup] at this
        exact Bool.false_ne_true this
      have hdisj : (s.shares.map Prod.fst).Disjoint [sid] := by
        intro a ha hb
        rw [List.mem_singleton.1 hb] at ha
        exact hsid ha
      have hnodup : ((s.shares ++ [(sid, share)]).map Prod.fst).Nodup := by
        rw [List.map_append]
        simp only [List.map_cons, List.map_nil]
        rw [List.nodup_append]
        exact ⟨hsWF.1, List.nodup_singleton sid, hdisj⟩
      rcases hcase with ⟨hthr, hc', _⟩ | ⟨hthr, hc', _⟩
      · show CoordWF pr.1 ∧ pr.1.threshold = c.threshold
        rw [hc']
        refine ⟨updateSession_WF c rid _ h ⟨?_, ?_⟩, rfl⟩
        · simpa using hnodup
        · intro _
          simpa using hthr
      · show CoordWF pr.1 ∧ pr.1.threshold = c.threshold
        rw [hc']
        refine ⟨updateSession_WF c rid _ h ⟨?_, ?_⟩, rfl⟩
        · simpa using hnodup
        · intro hcomp
          have h' : s.status = SessionStatus.complete := hcomp
          rw [hpend] at h'
          exact absurd h' (by decide)
  | failSession rid =>
    simp only [applyCoordOp]
    unfold fail_session
    cases hlk : lookupSession c rid with
    | none => exact ⟨h, rfl⟩
    | some s =>
      have hsWF := lookupSession_found_WF c rid s h hlk
      refine ⟨updateSession_WF c rid _ h ⟨hsWF.1, ?_⟩, rfl⟩
      intro hcomp
      exact absurd
        (show SessionStatus.failed = SessionStatus.complete from hcomp)
        (by decide)

theorem runCoord_WF (t n : Nat) (ops : List CoordOp) :
    CoordWF (runCoord t n ops) ∧ (runCoord t n ops).threshold = t := by
  have hgen : ∀ (ops : List CoordOp) (c : MpcCoordinator), CoordWF c →
      CoordWF (ops.foldl applyCoordOp c) ∧
        (ops.foldl applyCoordOp c).threshold = c.threshold := by
    intro ops
    induction ops with
    | nil => exact fun c h => ⟨h, rfl⟩
    | cons op ops ih =>
      intro c h
      obtain ⟨h1, h2⟩ := applyCoordOp_WF c op h
      obtain ⟨h3, h4⟩ := ih _ h1
      exact ⟨h3, h4.trans h2⟩
  exact hgen ops _ (coordWF_new t n)

theorem applyCoordOp_used (c : MpcCoordinator) (op : CoordOp) (rid : String)
    (h : CoordWF c) :
    rid ∈ (applyCoordOp c op).usedRequestIds ↔
      (rid ∈ c.usedRequestIds ∨
        ∃ tx now, op = CoordOp.requestSigning rid tx now) := by
  cases op with
  | submitShare rid' sid share =>
    have hused : (applyCoordOp c (.submitShare rid' sid share)).usedRequestIds =
        c.usedRequestIds := by
      simp only [applyCoordOp]
      cases hs : submit_share c rid' sid share with
      | error e => rfl
      | ok pr =>
        obtain ⟨s, _, _, _, hcase⟩ :=
          submit_share_ok_shape c rid' sid share pr.1 pr.2 (by rw [hs])
        show pr.1.usedRequestIds = c.usedRequestIds
        rcases hcase with ⟨_, hc', _⟩ | ⟨_, hc', _⟩ <;> rw [hc'] <;> rfl
    rw [hused]
    simp
  | failSession rid' =>
    have hused : (applyCoordOp c (.failSession rid')).usedRequestIds =
        c.usedRequestIds := by
      simp only [applyCoordOp]
      unfold fail_session
      cases lookupSession c rid' <;> rfl
    rw [hused]
    simp
  | requestSigning rid' tx now =>
    simp only [applyCoordOp]
    cases hr : request_signing c rid' tx now with
    | ok c' =>
      obtain ⟨h1, h2, rfl⟩ := request_signing_ok_shape c rid' tx now c' hr
      simp only [List.mem_cons]
      constructor
      · rintro (rfl | hm)
        · exact Or.inr ⟨tx, now, rfl⟩
        · exact Or.inl hm
      · rintro (hm | ⟨tx0, now0, heq⟩)
        · exact Or.inr hm
        · injection heq with e1 e2 e3
          exact Or.inl e1.symm
    | error e =>
      have hr' : rid' ∈ c.usedRequestIds := by
        unfold request_signing at hr
        split at hr
        · rename_i hcont
          exact List.mem_of_elem_eq_true hcont
        · split at hr
          · rename_i hlk
            exact lookupSession_key_used c rid' h (by simpa using hlk)
          · exact absurd hr (by simp)
      constructor
      · exact Or.inl
      · rintro (hm | ⟨tx0, now0, heq⟩)
        · exact hm
        · injection heq with e1 e2 e3
          exact e1 ▸ hr'

theorem runCoord_used_iff (t n : Nat) (ops : List CoordOp) (rid : String) :
    rid ∈ (runCoord t n ops).usedRequestIds ↔
      ∃ tx now, CoordOp.requestSigning rid tx now ∈ ops := by
  have hgen : ∀ (ops : List CoordOp) (c : MpcCoordinator), CoordWF c →
      (rid ∈ (ops.foldl applyCoordOp c).usedRequestIds ↔
        (rid ∈ c.usedRequestIds ∨
          ∃ tx now, CoordOp.requestSigning rid tx now ∈ ops)) := by
    intro ops
    induction ops with
    | nil =>
      intro c h
      simp
    | cons op ops ih =>
      intro c h
      rw [List.foldl_cons, ih _ (applyCoordOp_WF c op h).1, applyCoordOp_used c op rid h]
      constructor
      · rintro ((hm | ⟨tx0, now0, heq⟩) | ⟨tx0, now0, hmem⟩)
        · exact Or.inl hm
        · exact Or.inr ⟨tx0, now0, heq ▸ List.mem_cons_self _ _⟩
        · exact Or.inr ⟨tx0, now0, List.mem_cons_of_mem _ hmem⟩
      · rintro (hm | ⟨tx0, now0, hmem⟩)
        · exact Or.inl (Or.inl hm)
        · rcases List.mem_cons.1 hmem with heq | hmem'
          · exact Or.inl (Or.inr ⟨tx0, now0, heq.symm⟩)
          · exact Or.inr ⟨tx0, now0, hmem'⟩
  rw [runCoord, hgen ops _ (coordWF_new t n)]
  simp [MpcCoordinator.new]

/-- C4: over every sequence of coordinator operations, `request_signing`
fails exactly when the request_id was ever used by a prior
`request_signing` call (whether or not that session later completed or
failed); on success it creates a Pending session whose tx_data_hash is the
SHA-256 hex digest of the tx bytes and whose share map is empty; and the
active-session keys are pairwise distinct, so no request_id is ever
associated with two distinct sessions. -/
theorem request_signing_antireplay (t n : Nat) (ops : List CoordOp)
    (rid : String) (tx : List Nat) (now : Nat) :
    ((∃ e, request_signing (runCoord t n ops) rid tx now = .error e) ↔
      ∃ tx0 now0, CoordOp.requestSigning rid tx0 now0 ∈ ops) ∧
    (∀ c', request_signing (runCoord t n ops) rid tx now = .ok c' →
      lookupSession c' rid = some { requestId := rid, txDataHash := sha256Hex tx, shares := [], createdAt := now, status := .pending }) ∧
    ((runCoord t n ops).activeRequests.map Prod.fst).Nodup := by
  obtain ⟨hwf, hthr⟩ := runCoord_WF t n ops
  have hused := runCoord_used_iff t n ops rid
  refine ⟨?_, ?_, hwf.2.2⟩
  · rw [← hused]
    constructor
    · rintro ⟨e, he⟩
      by_contra hmem
      have hcont : (runCoord t n ops).usedRequestIds.contains rid = false := by
        cases hc : (runCoord t n ops).usedRequestIds.contains rid with
        | false => rfl
        | true => exact absurd (List.mem_of_elem_eq_true hc) hmem
      have hlk : (lookupSession (runCoord t n ops) rid).isSome = false := by
        cases hl : (lookupSession (runCoord t n ops) rid).isSome with
        | false => rfl
        | true => exact absurd (lookupSession_key_used _ rid hwf hl) hmem
      unfold request_signing at he
      rw [if_neg (by rw [hcont]; exact Bool.false_ne_true),
        if_neg (by rw [hlk]; exact Bool.false_ne_true)] at he
      exact Except.noConfusion he
    · intro hmem
      have hcont : (runCoord t n ops).usedRequestIds.contains rid = true :=
        List.elem_eq_true_of_mem hmem
      refine ⟨"Signing request `" ++ rid ++
        "` has already been processed (replay detected)", ?_⟩
      unfold request_signing
      rw [if_pos hcont]
  · intro c' hok
    obtain ⟨h1, h2, rfl⟩ := request_signing_ok_shape _ rid tx now c' hok
    unfold lookupSession
    rw [List.find?_cons_of_pos _ (by simp)]
    rfl

/-- C4 witness: the first request on a fresh coordinator succeeds and
stores the expected Pending session. -/
theorem request_signing_antireplay_witness :
    lookupSession { threshold := 2, totalSigners := 3, activeRequests := [("r1", { requestId := "r1", txDataHash := sha256Hex [1, 2, 3], shares := [], createdAt := 0, status := .pending })], usedRequestIds := ["r1"] } "r1" =
      some { requestId := "r1", txDataHash := sha256Hex [1, 2, 3], shares := [], createdAt := 0, status := .pending } :=
  (request_signing_antireplay 2 3 [] "r1" [1, 2, 3] 0).2.1
    { threshold := 2, totalSigners := 3, activeRequests := [("r1", { requestId := "r1", txDataHash := sha256Hex [1, 2, 3], shares := [], createdAt := 0, status := .pending })], usedRequestIds := ["r1"] }
    (by rfl)

/-- C5: `submit_share` fails when there is no session for the request id,
when the session is not Pending, or when the signer has already submitted;
on success it appends the share and returns the combined aggregate exactly
when the stored share count reaches the threshold, marking the session
Complete (and returns nothing before the threshold); and in every
reachable coordinator state a Complete session holds at least `threshold`
shares with pairwise-distinct signer ids. -/
theorem submit_share_threshold (t n : Nat) (ops : List CoordOp)
    (rid sid : String) (share : List Nat) :
    (lookupSession (runCoord t n ops) rid = none →
      ∃ e, submit_share (runCoord t n ops) rid sid share = .error e) ∧
    (∀ s, lookupSession (runCoord t n ops) rid = some s →
      s.status ≠ SessionStatus.pending →
      ∃ e, submit_share (runCoord t n ops) rid sid share = .error e) ∧
    (∀ s, lookupSession (runCoord t n ops) rid = some s →
      sid ∈ s.shares.map Prod.fst →
      ∃ e, submit_share (runCoord t n ops) rid sid share = .error e) ∧
    (∀ c' out, submit_share (runCoord t n ops) rid sid share = .ok (c', out) →
      ∃ s, lookupSession (runCoord t n ops) rid = some s ∧
        s.status = SessionStatus.pending ∧ sid ∉ s.shares.map Prod.fst ∧
        (out.isSome ↔ t ≤ s.shares.length + 1) ∧
        ∃ s', lookupSession c' rid = some s' ∧
          s'.shares = s.shares ++ [(sid, share)] ∧
          (s'.status = SessionStatus.complete ↔ t ≤ s.shares.length + 1)) ∧
    (∀ p ∈ (runCoord t n ops).activeRequests,
      p.2.status = SessionStatus.complete →
        t ≤ p.2.shares.length ∧ (p.2.shares.map Prod.fst).Nodup) := by
  obtain ⟨hwf, hthr⟩ := runCoord_WF t n ops
  refine ⟨?_, ?_, ?_, ?_, ?_⟩
  · intro hlk
    refine ⟨"No active session for request `" ++ rid ++ "`", ?_⟩
    simp only [submit_share, hlk]
  · intro s hlk hst
    refine ⟨"Session `" ++ rid ++ "` is no longer pending", ?_⟩
    simp only [submit_share, hlk]
    rw [if_pos hst]
  · intro s hlk hmem
    have hfs : (s.shares.find? (fun p => p.1 == sid)).isSome = true :=
      (key_mem_iff_find?_isSome s.shares sid).1 hmem
    by_cases hst : s.status ≠ SessionStatus.pending
    · refine ⟨"Session `" ++ rid ++ "` is no longer pending", ?_⟩
      simp only [submit_share, hlk]
      rw [if_pos hst]
    · refine ⟨"Signer `" ++ sid ++ "` has already submitted a share for `" ++
        rid ++ "`", ?_⟩
      simp only [submit_share, hlk]
      rw [if_neg hst, if_pos hfs]
  · intro c' out hok
    obtain ⟨s, hlk, hpend, hdup, hcase⟩ :=
      submit_share_ok_shape _ rid sid share c' out hok
    have hsid : sid ∉ s.shares.map Prod.fst := by
      intro hmem
      have := (key_mem_iff_find?_isSome s.shares sid).1 hmem
      rw [hdup] at this
      exact Bool.false_ne_true this
    rcases hcase with ⟨hth, hc', hout⟩ | ⟨hth, hc', hout⟩
    · have hth' : t ≤ s.shares.length + 1 := by rwa [hthr] at hth
      refine ⟨s, hlk, hpend, hsid, ?_, ?_⟩
      · rw [hout]
        exact ⟨fun _ => hth', fun _ => rfl⟩
      · refine ⟨{ requestId := s.requestId, txDataHash := s.txDataHash, shares := s.shares ++ [(sid, share)], createdAt := s.createdAt, status := SessionStatus.complete }, ?_, rfl, ⟨fun _ => hth', fun _ => rfl⟩⟩
        rw [hc']
        exact lookupSession_update_of_found _ rid s _ hlk
    · have hth' : ¬ t ≤ s.shares.length + 1 := by rwa [hthr] at hth
      refine ⟨s, hlk, hpend, hsid, ?_, ?_⟩
      · rw [hout]
        exact ⟨fun hfalse => absurd hfalse (by simp), fun hle => absurd hle hth'⟩
      · refine ⟨{ requestId := s.requestId, txDataHash := s.txDataHash, shares := s.shares ++ [(sid, share)], createdAt := s.createdAt, status := s.status }, ?_, rfl, ?_⟩
        · rw [hc']
          exact lookupSession_update_of_found _ rid s _ hlk
        · constructor
          · intro hcomp
            have h' : s.status = SessionStatus.complete := hcomp
            rw [hpend] at h'
            exact absurd h' (by decide)
          · intro hle
            exact absurd hle hth'
  · intro p hp hcomp
    have hs := hwf.1 p hp
    refine ⟨?_, hs.1⟩
    rw [← hthr]
    exact hs.2 hcomp

/-- C5 witness: submitting against an unknown request id fails. -/
theorem submit_share_threshold_witness :
    ∃ e, submit_share (runCoord 2 3 []) "r1" "s1" [9] = .error e :=
  (submit_share_threshold 2 3 [] "r1" "s1" [9]).1 (by rfl)

theorem mem_unique_of_nodup_key {A K : Type} (key : A → K) :
    ∀ (db : List A), (db.map key).Nodup →
      ∀ x, x ∈ db → ∀ y, y ∈ db → key x = key y → x = y := by
  intro db
  induction db with
  | nil =>
    intro _ x hx
    exact absurd hx (List.not_mem_nil x)
  | cons z zs ih =>
    intro hnd x hx y hy hk
    rw [List.map_cons, List.nodup_cons] at hnd
    rcases List.mem_cons.1 hx with rfl | hx'
    · rcases List.mem_cons.1 hy with rfl | hy'
      · rfl
      · have hmem : key y ∈ zs.map key := List.mem_map_of_mem key hy'
        rw [← hk] at hmem
        exact absurd hmem hnd.1
    · rcases List.mem_cons.1 hy with rfl | hy'
      · have hmem : key x ∈ zs.map key := List.mem_map_of_mem key hx'
        rw [hk] at hmem
        exact absurd hmem hnd.1
      · exact ih hnd.2 x hx' y hy' hk

theorem find?_orderId_facts (db : List Order) (oid : String) (x : Order)
    (hfind : db.find? (fun y => y.orderId == oid) = some x) :
    x ∈ db ∧ x.orderId = oid :=
  ⟨List.mem_of_find?_eq_some hfind, by simpa using List.find?_some hfind⟩

theorem get_order_ok_iff (db : List Order) (oid : String) (cur : Order) :
    get_order db oid = .ok cur ↔
      db.find? (fun o => o.orderId == oid) = some cur := by
  unfold get_order
  cases hf : db.find? (fun o => o.orderId == oid) <;> simp

theorem update_status_ok_shape (db : List Order) (oid : String)
    (ns : OrderStatus) (now : Nat) (db' : List Order) (o' : Order)
    (h : update_status db oid ns now = .ok (db', o')) :
    ∃ cur, db.find? (fun o => o.orderId == oid) = some cur ∧
      cur.status.canTransitionTo ns = true ∧
      db' = applyStatusUpdate db oid ns now := by
  unfold update_status at h
  split at h
  · exact absurd h (by simp)
  · rename_i cur hget
    cases hcan : cur.status.canTransitionTo ns with
    | false =>
      rw [if_pos (by rw [hcan]; rfl)] at h
      exact absurd h (by simp)
    | true =>
      rw [if_neg (by rw [hcan]; simp)] at h
      injection h with hpair
      have h1 := congrArg Prod.fst hpair
      simp only at h1
      exact ⟨cur, (get_order_ok_iff db oid cur).1 hget, hcan, h1.symm⟩

theorem cancel_order_ok_shape (db : List Order) (oid : String) (now : Nat)
    (db' : List Order) (o' : Order)
    (h : cancel_order db oid now = .ok (db', o')) :
    ∃ cur, db.find? (fun o => o.orderId == oid) = some cur ∧
      cur.status = OrderStatus.awaitingDeposit ∧
      db' = applyStatusUpdate db oid .expired now := by
  unfold cancel_order at h
  split at h
  · exact absurd h (by simp)
  · rename_i cur hget
    by_cases hst : cur.status ≠ OrderStatus.awaitingDeposit
    · rw [if_pos hst] at h
      exact absurd h (by simp)
    · rw [if_neg hst] at h
      obtain ⟨cur2, hfind2, hcan2, hdb⟩ :=
        update_status_ok_shape db oid .expired now db' o' h
      exact ⟨cur, (get_order_ok_iff db oid cur).1 hget, not_not.1 hst, hdb⟩

theorem admin_refund_ok_shape (db : List Order) (oid : String) (now : Nat)
    (db' : List Order) (o' : Order)
    (h : admin_refund db oid now = .ok (db', o')) :
    ∃ cur, db.find? (fun o => o.orderId == oid) = some cur ∧
      cur.status = OrderStatus.failed ∧
      db' = applyStatusUpdate db oid .refunding now := by
  unfold admin_refund at h
  split at h
  · exact absurd h (by simp)
  · rename_i cur hget
    by_cases hst : cur.status ≠ OrderStatus.failed
    · rw [if_pos hst] at h
      exact absurd h (by simp)
    · rw [if_neg hst] at h
      obtain ⟨cur2, hfind2, hcan2, hdb⟩ :=
        update_status_ok_shape db oid .refunding now db' o' h
      exact ⟨cur, (get_order_ok_iff db oid cur).1 hget, not_not.1 hst, hdb⟩

theorem process_withdrawal_ok_shape (db : List Order) (oid : String) (now : Nat)
    (db' : List Order) (h : process_withdrawal db oid now = .ok db') :
    ∃ order, db.find? (fun o => o.orderId == oid) = some order ∧
      order.status = OrderStatus.bridging ∧
      db' = (setStatusById (setStatusById db order.id .signing now)
          order.id .sending now).map
        (fun o => if o.id == order.id then { o with status := .completed, step := OrderStatus.completed.step, withdrawalTxHash := some (broadcast_placeholder_hash order.orderId), updatedAt := now } else o) := by
  unfold process_withdrawal at h
  split at h
  · exact absurd h (by simp)
  · rename_i order hfind
    by_cases hst : order.status ≠ OrderStatus.bridging
    · rw [if_pos hst] at h
      exact absurd h (by simp)
    · rw [if_neg hst] at h
      injection h with h1
      exact ⟨order, hfind, not_not.1 hst, h1.symm⟩

theorem check_deposit_none (o : Order) : check_deposit o = none := by
  unfold check_deposit
  cases o.depositAddress <;> rfl

theorem poll_deposits_eq_self (db : List Order) (now : Nat) :
    poll_deposits db now = db := by
  unfold poll_deposits
  induction db with
  | nil => rfl
  | cons o os ih =>
    simp only [List.map_cons]
    congr 1
    by_cases h : o.status = OrderStatus.awaitingDeposit
    · rw [if_pos h, check_deposit_none]
    · rw [if_neg h]

/-- C9: no operation in the program transitions an order out of Created:
`create_order` inserts rows with status Created, no code path writes
status AwaitingDeposit onto a row that did not already have it, and —
since the deposit monitor, the expiry sweeper, and cancel select or
require only AwaitingDeposit orders (and the other drivers other
statuses) — an order that is in Created keeps status Created across every
operation. -/
theorem created_orders_never_advance (db : List Order) (op : SysOp)
    (hnd : (db.map Order.orderId).Nodup) (hndid : (db.map Order.id).Nodup) :
    (∀ x ∈ applySysOp db op, x.status = OrderStatus.awaitingDeposit →
      ∃ o, o ∈ db ∧ o.id = x.id ∧ o.status = OrderStatus.awaitingDeposit) ∧
    (∀ o ∈ db, o.status = OrderStatus.created →
      ∃ x, x ∈ applySysOp db op ∧ x.id = o.id ∧
        x.status = OrderStatus.created) := by
  cases op with
  | createOp params rate feePercent oid id now mins =>
    constructor
    · intro x hx hst
      rcases List.mem_append.1 hx with hx' | hx'
      · exact ⟨x, hx', rfl, hst⟩
      · rw [List.mem_singleton.1 hx'] at hst
        exact absurd (show OrderStatus.created = OrderStatus.awaitingDeposit
          from hst) (by decide)
    · intro o ho hst
      exact ⟨o, List.mem_append_left _ ho, rfl, hst⟩
  | cancelOp oid now =>
    simp only [applySysOp]
    cases hres : cancel_order db oid now with
    | error e =>
      exact ⟨fun x hx hst => ⟨x, hx, rfl, hst⟩,
        fun o ho hst => ⟨o, ho, rfl, hst⟩⟩
    | ok pr =>
      obtain ⟨cur, hfind, hcur, hdb'⟩ :=
        cancel_order_ok_shape db oid now pr.1 pr.2 (by rw [hres])
      have hfk := find?_orderId_facts db oid cur hfind
      constructor
      · intro x hx hst
        have hx' : x ∈ applyStatusUpdate db oid .expired now := by
          rw [← hdb']
          exact hx
        rcases List.mem_map.1 hx' with ⟨y, hy, hxy⟩
        by_cases hc : (y.orderId == oid) = true
        · rw [if_pos hc] at hxy
          rw [← hxy] at hst
          exact absurd (show OrderStatus.expired = OrderStatus.awaitingDeposit
            from hst) (by decide)
        · rw [if_neg hc] at hxy
          exact ⟨y, hy, by rw [hxy], by rw [hxy]; exact hst⟩
      · intro o ho hst
        have hne : (o.orderId == oid) = false := by
          cases hc : (o.orderId == oid) with
          | false => rfl
          | true =>
            have ho' : o.orderId = oid := by simpa using hc
            have hoc : o = cur := mem_unique_of_nodup_key Order.orderId db hnd
              o ho cur hfk.1 (by rw [ho', hfk.2])
            rw [hoc, hcur] at hst
            exact absurd hst (by decide)
        refine ⟨o, ?_, rfl, hst⟩
        show o ∈ pr.1
        rw [hdb']
        exact List.mem_map.2 ⟨o, ho,
          if_neg (by rw [hne]; exact Bool.false_ne_true)⟩
  | refundOp oid now =>
    simp only [applySysOp]
    cases hres : admin_refund db oid now with
    | error e =>
      exact ⟨fun x hx hst => ⟨x, hx, rfl, hst⟩,
        fun o ho hst => ⟨o, ho, rfl, hst⟩⟩
    | ok pr =>
      obtain ⟨cur, hfind, hcur, hdb'⟩ :=
        admin_refund_ok_shape db oid now pr.1 pr.2 (by rw [hres])
      have hfk := find?_orderId_facts db oid cur hfind
      constructor
      · intro x hx hst
        have hx' : x ∈ applyStatusUpdate db oid .refunding now := by
          rw [← hdb']
          exact hx
        rcases List.mem_map.1 hx' with ⟨y, hy, hxy⟩
        by_cases hc : (y.orderId == oid) = true
        · rw [if_pos hc] at hxy
          rw [← hxy] at hst
          exact absurd (show OrderStatus.refunding = OrderStatus.awaitingDeposit
            from hst) (by decide)
        · rw [if_neg hc] at hxy
          exact ⟨y, hy, by rw [hxy], by rw [hxy]; exact hst⟩
      · intro o ho hst
        have hne : (o.orderId == oid) = false := by
          cases hc : (o.orderId == oid) with
          | false => rfl
          | true =>
            have ho' : o.orderId = oid := by simpa using hc
            have hoc : o = cur := mem_unique_of_nodup_key Order.orderId db hnd
              o ho cur hfk.1 (by rw [ho', hfk.2])
            rw [hoc, hcur] at hst
            exact absurd hst (by decide)
        refine ⟨o, ?_, rfl, hst⟩
        show o ∈ pr.1
        rw [hdb']
        exact List.mem_map.2 ⟨o, ho,
          if_neg (by rw [hne]; exact Bool.false_ne_true)⟩
  | depositTick now =>
    simp only [applySysOp]
    rw [poll_deposits_eq_self]
    exact ⟨fun x hx hst => ⟨x, hx, rfl, hst⟩,
      fun o ho hst => ⟨o, ho, rfl, hst⟩⟩
  | confirmTick now =>
    simp only [applySysOp]
    constructor
    · intro x hx hst
      unfold poll_confirmations at hx
      rcases List.mem_map.1 hx with ⟨y, hy, hxy⟩
      by_cases h1 : (y.status = OrderStatus.depositDetected ∨
          y.status = OrderStatus.confirming)
      · rw [if_pos h1] at hxy
        by_cases h2 : (confirmStatus y ≠ y.status ∨
            fetch_confirmations y ≠ y.confirmationsCurrent)
        · rw [if_pos h2] at hxy
          rw [← hxy] at hst
          have hcs : confirmStatus y = OrderStatus.awaitingDeposit := hst
          unfold confirmStatus at hcs
          by_cases h3 : confirmations_for_chain y.sourceChain ≤
              fetch_confirmations y
          · rw [if_pos h3] at hcs
            exact absurd hcs (by decide)
          · rw [if_neg h3] at hcs
            exact absurd hcs (by decide)
        · rw [if_neg h2] at hxy
          exact ⟨y, hy, by rw [hxy], by rw [hxy]; exact hst⟩
      · rw [if_neg h1] at hxy
        exact ⟨y, hy, by rw [hxy], by rw [hxy]; exact hst⟩
    · intro o ho hst
      refine ⟨o, ?_, rfl, hst⟩
      unfold poll_confirmations
      refine List.mem_map.2 ⟨o, ho, ?_⟩
      have hcond : ¬(o.status = OrderStatus.depositDetected ∨
          o.status = OrderStatus.confirming) := by
        rw [hst]
        decide
      exact if_neg hcond
  | expiryTick now =>
    simp only [applySysOp]
    constructor
    · intro x hx hst
      unfold expire_orders at hx
      rcases List.mem_map.1 hx with ⟨y, hy, hxy⟩
      by_cases h1 : (y.status = OrderStatus.awaitingDeposit ∧ y.expiresAt < now)
      · rw [if_pos h1] at hxy
        rw [← hxy] at hst
        exact absurd (show OrderStatus.expired = OrderStatus.awaitingDeposit
          from hst) (by decide)
      · rw [if_neg h1] at hxy
        exact ⟨y, hy, by rw [hxy], by rw [hxy]; exact hst⟩
    · intro o ho hst
      refine ⟨o, ?_, rfl, hst⟩
      unfold expire_orders
      refine List.mem_map.2 ⟨o, ho, ?_⟩
      have hcond : ¬(o.status = OrderStatus.awaitingDeposit ∧
          o.expiresAt < now) := by
        intro hco
        rcases hco with ⟨ha, _⟩
        rw [hst] at ha
        exact absurd ha (by decide)
      exact if_neg hcond
  | withdrawOp oid now =>
    simp only [applySysOp]
    cases hres : process_withdrawal db oid now with
    | error e =>
      exact ⟨fun x hx hst => ⟨x, hx, rfl, hst⟩,
        fun o ho hst => ⟨o, ho, rfl, hst⟩⟩
    | ok db3 =>
      obtain ⟨order, hfind, hbr, hdb3⟩ :=
        process_withdrawal_ok_shape db oid now db3 (by rw [hres])
      have hfk := find?_orderId_facts db oid order hfind
      constructor
      · intro x hx hst
        rw [hdb3] at hx
        rcases List.mem_map.1 hx with ⟨y2, hy2, hxy⟩
        unfold setStatusById at hy2
        rcases List.mem_map.1 hy2 with ⟨y1, hy1, hy12⟩
        rcases List.mem_map.1 hy1 with ⟨y0, hy0, hy01⟩
        by_cases hc : (y0.id == order.id) = true
        · rw [if_pos hc] at hy01
          have h1id : y1.id = y0.id := by rw [← hy01]
          have hc1 : (y1.id == order.id) = true := by rw [h1id]; exact hc
          rw [if_pos hc1] at hy12
          have h2id : y2.id = y1.id := by rw [← hy12]
          have hc2 : (y2.id == order.id) = true := by rw [h2id, h1id]; exact hc
          rw [if_pos hc2] at hxy
          rw [← hxy] at hst
          exact absurd (show OrderStatus.completed = OrderStatus.awaitingDeposit
            from hst) (by decide)
        · rw [if_neg hc] at hy01
          rw [← hy01] at hy12
          rw [if_neg hc] at hy12
          rw [← hy12] at hxy
          rw [if_neg hc] at hxy
          exact ⟨y0, hy0, by rw [hxy], by rw [hxy]; exact hst⟩
      · intro o ho hst
        have hne : (o.id == order.id) = false := by
          cases hc : (o.id == order.id) with
          | false => rfl
          | true =>
            have hid : o.id = order.id := by simpa using hc
            have hoc : o = order := mem_unique_of_nodup_key Order.id db hndid
              o ho order hfk.1 hid
            rw [hoc, hbr] at hst
            exact absurd hst (by decide)
        refine ⟨o, ?_, rfl, hst⟩
        rw [hdb3]
        refine List.mem_map.2 ⟨o, ?_, ?_⟩
        · unfold setStatusById
          exact List.mem_map.2 ⟨o, List.mem_map.2 ⟨o, ho,
            if_neg (by rw [hne]; exact Bool.false_ne_true)⟩,
            if_neg (by rw [hne]; exact Bool.false_ne_true)⟩
        · exact if_neg (by rw [hne]; exact Bool.false_ne_true)

/-- C9 witness: one expiry sweep over a table holding one Created order
leaves it in Created. -/
theorem created_orders_never_advance_witness :
    ∃ x, x ∈ applySysOp [sampleOrder] (.expiryTick 99999) ∧
      x.id = sampleOrder.id ∧ x.status = OrderStatus.created :=
  (created_orders_never_advance [sampleOrder] (.expiryTick 99999)
    (by decide) (by decide)).2 sampleOrder (by simp) (by rfl)

end UmbraBridge
